import Mathlib

/-!
# Verification of the price-metrics engine of `stock_dashboard`

Shallow embedding of `src/stock_dashboard/stock_info.py` (class `StockInfo`).

Modelling choices:
* A price table row (one trading day) is a `PriceRecord`; the pandas
  DataFrame `self.prices` is a `List PriceRecord` ordered by date.
  The code's column `Close` (auto-adjusted close) is the field `close_adj`,
  the column `Close_raw` is `close_raw`, `Dividends` is `dividends`.
* Dates are integers (day ordinals); pandas timestamp comparison is a
  linear order, which ℤ models faithfully.
* Python/numpy floats are modelled by exact rationals ℚ, except that a
  division with a zero denominator is kept explicit: numpy turns it into
  `inf`/`-inf`/`nan` (with a warning, never an exception), which the type
  `PyNum` records.
* `calculate_growth` returning Python `None` is modelled by `Option`:
  `none` is the spec's `Unavailable` outcome.
-/

/-- One row of the daily price table (spec section 3, PriceSeries record). -/
structure PriceRecord where
  date : ℤ
  open_price : ℚ
  high : ℚ
  low : ℚ
  close_adj : ℚ
  close_raw : ℚ
  volume : ℚ
  dividends : ℚ
deriving DecidableEq

/-- The spec's PriceSeries invariant: dates strictly increasing
(hence no duplicate dates). -/
def DatesSorted (l : List PriceRecord) : Prop :=
  l.Pairwise (fun a b => a.date < b.date)

instance (l : List PriceRecord) : Decidable (DatesSorted l) := by
  unfold DatesSorted; infer_instance

/-- A numpy floating-point result: a finite value (kept exact as ℚ), or one
of the non-finite values that numpy produces silently on division by zero. -/
inductive PyNum where
  | num (q : ℚ)
  | inf
  | ninf
  | nan
deriving DecidableEq

/-- numpy float division `a / b`: for `b = 0` numpy emits a warning and
returns `inf`, `-inf` or `nan` according to the sign of `a`; no exception. -/
def pyDiv (a b : ℚ) : PyNum :=
  if b = 0 then
    if 0 < a then .inf else if a < 0 then .ninf else .nan
  else
    .num (a / b)

/-- numpy float subtraction, extended to the non-finite values. -/
def pySub : PyNum → PyNum → PyNum
  | .num a, .num b => .num (a - b)
  | .num _, .inf => .ninf
  | .num _, .ninf => .inf
  | .inf, .num _ => .inf
  | .ninf, .num _ => .ninf
  | .inf, .inf => .nan
  | .ninf, .ninf => .nan
  | .inf, .ninf => .inf
  | .ninf, .inf => .ninf
  | .nan, _ => .nan
  | _, .nan => .nan

/-- `StockInfo.get_sub_prices_by_day`: the boolean-mask filter
`self.prices[(self.prices.index >= start_date) & (self.prices.index <= end_date)]`. -/
def get_sub_prices_by_day (prices : List PriceRecord)
    (start_date end_date : ℤ) : List PriceRecord :=
  prices.filter (fun r => decide (start_date ≤ r.date) && decide (r.date ≤ end_date))

/-- Label lookup `frame[column][d]` on the date index: the first row whose
date equals `d` (dates are unique under `DatesSorted`).  The `0` default is
unreachable in `calculate_growth`, where `d` is the min/max of the index. -/
def colAt (l : List PriceRecord) (d : ℤ) (f : PriceRecord → ℚ) : ℚ :=
  match l.find? (fun r => r.date == d) with
  | some r => f r
  | none => 0

/-- Lines 120-141 of `stock_info.py`: `calculate_growth` before the baseline
adjustment (the baseline recursion always runs with `baseline=None`, so the
recursive body is exactly this function). -/
def calculate_growth_self (prices : List PriceRecord)
    (start_date end_date : ℤ) (reinvest : Bool)
    (initial_price : Option ℚ) : Option PyNum :=
  let sub_prices := get_sub_prices_by_day prices start_date end_date
  if sub_prices.isEmpty then
    none  -- `return None`: stock didn't exist at this date
  else
    let min_date := ((sub_prices.map (·.date)).min?).getD 0
    let max_date := ((sub_prices.map (·.date)).max?).getD 0
    -- set the initial price if not specified
    let ip : ℚ :=
      match initial_price with
      | some p => p
      | none =>
        if reinvest then colAt sub_prices min_date (·.close_adj)
        else colAt sub_prices min_date (·.close_raw)
    let final_price : ℚ :=
      if reinvest then colAt sub_prices max_date (·.close_adj)
      else colAt sub_prices max_date (·.close_raw)
            + (sub_prices.map (·.dividends)).sum
    some (pyDiv (final_price - ip) ip)

/-- Lines 120-150 of `stock_info.py`: full `calculate_growth`, including the
baseline comparison.  The recursive call
`baseline.calculate_growth(start_date, end_date, reinvest=True)` leaves
`initial_price` and `baseline` at their `None` defaults, so it equals
`calculate_growth_self baseline start_date end_date true none`. -/
def calculate_growth (prices : List PriceRecord)
    (start_date end_date : ℤ) (reinvest : Bool)
    (initial_price : Option ℚ)
    (baseline : Option (List PriceRecord)) : Option PyNum :=
  match calculate_growth_self prices start_date end_date reinvest initial_price with
  | none => none
  | some growth =>
    let baseline_growth : PyNum :=
      match baseline with
      | some b =>
        match calculate_growth_self b start_date end_date true none with
        | none => .num 0   -- `if baseline_growth is None: baseline_growth = 0`
        | some bg => bg
      | none => .num 0
    some (pySub growth baseline_growth)

/-- The trailing window pandas uses at position `i` for window size `p`:
the elements at indices `i-p+1 .. i`. -/
def windowAt (xs : List ℚ) (p i : ℕ) : List ℚ :=
  (xs.take (i + 1)).drop (i + 1 - p)

/-- `Series.rolling(p).f()` for a window statistic `f`: defined at position
`i` exactly when the window is full (`p ≤ i+1`, with `p ≥ 1`); earlier
positions are NaN (modelled `none`), never a partial-window value. -/
def rolling_apply {α : Type} (f : List ℚ → α) (xs : List ℚ) (p : ℕ) :
    List (Option α) :=
  (List.range xs.length).map fun i =>
    if 1 ≤ p ∧ p ≤ i + 1 then some (f (windowAt xs p i)) else none

/-- `Series.rolling(p).mean()`. -/
def rolling_mean (xs : List ℚ) (p : ℕ) : List (Option ℚ) :=
  rolling_apply (fun w => w.sum / (w.length : ℚ)) xs p

/-- Outcome of `StockInfo.rolling_average`.  The source performs no argument
validation of its own; a negative window is rejected by the pandas library
with a generic `ValueError` (constructor `libraryValueError`).  The
constructor `invalidArgument` is the engine-level error the spec prescribes;
it is never produced by the source. -/
inductive RollingOutcome where
  | series (vals : List (Option ℚ))
  | libraryValueError
  | invalidArgument
deriving DecidableEq

/-- `StockInfo.rolling_average(period)`:
`return self.prices["Close"].rolling(period).mean()` — no validation in the
source; pandas raises `ValueError` for a negative window and produces an
all-NaN series for window `0` (empty windows have no mean). -/
def rolling_average (prices : List PriceRecord) (period : ℤ) : RollingOutcome :=
  if period < 0 then .libraryValueError
  else .series (rolling_mean (prices.map (·.close_adj)) period.toNat)

/-- Typical Price: `(Close + High + Low) / 3` per day. -/
def typical_price (r : PriceRecord) : ℚ :=
  (r.close_adj + r.high + r.low) / 3

/-- Sample variance (pandas default `ddof=1`) of a window.
pandas yields NaN for a length-1 window (a 0/0); `rolling_std` below makes
that case undefined, so this formula is only used with `w.length ≥ 2`. -/
def sampleVar (w : List ℚ) : ℚ :=
  ((w.map fun x => (x - w.sum / (w.length : ℚ)) ^ 2).sum) / ((w.length : ℚ) - 1)

/-- `Series.rolling(p).std()`: sample standard deviation (`ddof=1`) of the
trailing window; NaN (here `none`) while the window is not full and for
`p = 1`, where the 0/0 sample variance is NaN. -/
noncomputable def rolling_std (xs : List ℚ) (p : ℕ) : List (Option ℝ) :=
  (List.range xs.length).map fun i =>
    if 2 ≤ p ∧ p ≤ i + 1 then some (Real.sqrt (sampleVar (windowAt xs p i))) else none

/-- One row of the `bollinger_bands` result frame. -/
structure BollingerRow where
  bollinger_ma : ℝ
  bollinger_upper : ℝ
  bollinger_lower : ℝ

/-- `StockInfo.bollinger_bands(period, m_sigma)`: moving average and moving
standard deviation of the typical price; upper/lower bands at
`ma ± m_sigma * sd`.  A row is present when both statistics are (pandas
rows where either is NaN carry NaN bands). -/
noncomputable def bollinger_bands (prices : List PriceRecord)
    (period : ℕ) (m_sigma : ℤ) : List (Option BollingerRow) :=
  let tp := prices.map typical_price
  let moving_average := rolling_mean tp period
  let moving_sd := rolling_std tp period
  (List.range tp.length).map fun i =>
    match moving_average.getD i none, moving_sd.getD i none with
    | some ma, some sd =>
      some ⟨(ma : ℝ), (ma : ℝ) + (m_sigma : ℝ) * sd, (ma : ℝ) - (m_sigma : ℝ) * sd⟩
    | _, _ => none

/-! ## Helper lemmas -/

/-- Subtracting a literal zero is the identity on every numpy float value. -/
theorem pySub_num_zero (g : PyNum) : pySub g (.num 0) = g := by
  cases g <;> simp [pySub]

theorem mem_get_sub_prices (prices : List PriceRecord) (s e : ℤ)
    (r : PriceRecord) :
    r ∈ get_sub_prices_by_day prices s e ↔ r ∈ prices ∧ s ≤ r.date ∧ r.date ≤ e := by
  simp [get_sub_prices_by_day, List.mem_filter, and_assoc]

theorem get_sub_prices_eq_nil (prices : List PriceRecord) (s e : ℤ)
    (h : ∀ r ∈ prices, ¬(s ≤ r.date ∧ r.date ≤ e)) :
    get_sub_prices_by_day prices s e = [] := by
  apply List.filter_eq_nil_iff.mpr
  intro r hr
  simpa using h r hr

theorem min?_dates_sorted (l : List PriceRecord) (f : PriceRecord)
    (hs : DatesSorted l) (hf : l.head? = some f) :
    (l.map (·.date)).min? = some f.date := by
  cases l with
  | nil => simp at hf
  | cons a as =>
    obtain rfl : a = f := by simpa using hf
    rw [List.map_cons, List.min?_cons]
    cases has : (as.map (·.date)).min? with
    | none => rfl
    | some m =>
      have hm : m ∈ as.map (·.date) := List.min?_mem (fun x y => min_choice x y) has
      obtain ⟨r, hr, rfl⟩ := List.mem_map.mp hm
      have hlt := (List.pairwise_cons.mp hs).1 r hr
      simp [min_eq_left (le_of_lt hlt)]

theorem max?_dates_sorted (l : List PriceRecord) (lst : PriceRecord)
    (hs : DatesSorted l) (hl : l.getLast? = some lst) :
    (l.map (·.date)).max? = some lst.date := by
  induction l with
  | nil => simp at hl
  | cons a as ih =>
    cases as with
    | nil =>
      obtain rfl : a = lst := by simpa using hl
      rfl
    | cons b bs =>
      have hl' : (b :: bs).getLast? = some lst := by
        rw [List.getLast?_cons_cons] at hl; exact hl
      have hmem : lst ∈ b :: bs := by
        obtain ⟨hne, heq⟩ := List.mem_getLast?_eq_getLast (Option.mem_def.mpr hl')
        rw [heq]; exact List.getLast_mem hne
      have hlt : a.date < lst.date := (List.pairwise_cons.mp hs).1 lst hmem
      have ihres := ih (List.pairwise_cons.mp hs).2 hl'
      rw [List.map_cons, List.max?_cons, ihres]
      simp [max_eq_right (le_of_lt hlt)]

theorem find?_head_date (l : List PriceRecord) (f : PriceRecord)
    (hf : l.head? = some f) :
    l.find? (fun r => r.date == f.date) = some f := by
  cases l with
  | nil => simp at hf
  | cons a as =>
    obtain rfl : a = f := by simpa using hf
    exact List.find?_cons_of_pos as (by simp)

theorem find?_getLast_date (l : List PriceRecord) (lst : PriceRecord)
    (hs : DatesSorted l) (hl : l.getLast? = some lst) :
    l.find? (fun r => r.date == lst.date) = some lst := by
  induction l with
  | nil => simp at hl
  | cons a as ih =>
    cases as with
    | nil =>
      obtain rfl : a = lst := by simpa using hl
      exact List.find?_cons_of_pos [] (by simp)
    | cons b bs =>
      have hl' : (b :: bs).getLast? = some lst := by
        rw [List.getLast?_cons_cons] at hl; exact hl
      have hmem : lst ∈ b :: bs := by
        obtain ⟨hne, heq⟩ := List.mem_getLast?_eq_getLast (Option.mem_def.mpr hl')
        rw [heq]; exact List.getLast_mem hne
      have hlt : a.date < lst.date := (List.pairwise_cons.mp hs).1 lst hmem
      rw [List.find?_cons_of_neg _ (by simp [hlt.ne])]
      exact ih (List.pairwise_cons.mp hs).2 hl'

/-- Symbolic evaluation of `calculate_growth_self` on a sorted series with a
non-empty sub-range: the index minimum is the first in-range row, the index
maximum is the last, and the result is the (numpy) division
`(final_price - initial_price) / initial_price`. -/
theorem calculate_growth_self_eq (prices : List PriceRecord) (s e : ℤ)
    (rv : Bool) (ip : Option ℚ) (f lst : PriceRecord)
    (hs : DatesSorted prices)
    (hf : (get_sub_prices_by_day prices s e).head? = some f)
    (hl : (get_sub_prices_by_day prices s e).getLast? = some lst) :
    calculate_growth_self prices s e rv ip =
      some (pyDiv
        ((if rv then lst.close_adj
          else lst.close_raw +
            ((get_sub_prices_by_day prices s e).map (·.dividends)).sum)
         - ip.getD (if rv then f.close_adj else f.close_raw))
        (ip.getD (if rv then f.close_adj else f.close_raw))) := by
  have hs' : DatesSorted (get_sub_prices_by_day prices s e) :=
    List.Pairwise.sublist (List.filter_sublist prices) hs
  have hmin := min?_dates_sorted _ f hs' hf
  have hmax := max?_dates_sorted _ lst hs' hl
  have hfindf := find?_head_date _ f hf
  have hfindl := find?_getLast_date _ lst hs' hl
  have hne : (get_sub_prices_by_day prices s e).isEmpty = false := by
    cases h : get_sub_prices_by_day prices s e with
    | nil => rw [h] at hf; simp at hf
    | cons x xs => rfl
  simp only [calculate_growth_self, hne, Bool.false_eq_true, if_false, hmin,
    hmax, Option.getD_some, colAt, hfindf, hfindl]
  cases ip <;> rfl

/-! ## C9: idempotence of the date-range filter -/

/-- C9: `get_sub_range` is idempotent — applying `get_sub_prices_by_day`
with the same `start_date` and `end_date` to its own output returns that
output unchanged. -/
theorem get_sub_prices_idempotent (prices : List PriceRecord) (s e : ℤ) :
    get_sub_prices_by_day (get_sub_prices_by_day prices s e) s e =
      get_sub_prices_by_day prices s e := by
  apply List.filter_eq_self.mpr
  intro r hr
  exact (List.mem_filter.mp hr).2

/-! ## C3: empty sub-range gives the Unavailable outcome -/

/-- C3: whenever no record's date lies in `[s, e]` (in particular whenever
`s > e`), `calculate_growth` returns the distinguished `Unavailable`
outcome (`none`, the embedding of Python `None`): not an exception, and
distinguishable from every numeric growth `some g` — in particular from
`some (.num 0)`. -/
theorem calculate_growth_unavailable (prices : List PriceRecord) (s e : ℤ)
    (rv : Bool) (ip : Option ℚ) (b : Option (List PriceRecord))
    (h : ∀ r ∈ prices, ¬(s ≤ r.date ∧ r.date ≤ e)) :
    calculate_growth prices s e rv ip b = none ∧
      ∀ g : PyNum, calculate_growth prices s e rv ip b ≠ some g := by
  have hempty : get_sub_prices_by_day prices s e = [] :=
    get_sub_prices_eq_nil prices s e h
  have hmain : calculate_growth prices s e rv ip b = none := by
    unfold calculate_growth calculate_growth_self
    rw [hempty]
    rfl
  exact ⟨hmain, fun g hg => by rw [hmain] at hg; exact Option.noConfusion hg⟩

/-- Witness for C3 at a concrete input with `start_date > end_date`. -/
theorem calculate_growth_unavailable_witness :
    calculate_growth [⟨1, 0, 0, 0, 100, 100, 0, 0⟩] 2 1 false none none = none :=
  (calculate_growth_unavailable [⟨1, 0, 0, 0, 100, 100, 0, 0⟩] 2 1 false none none
    (by decide)).1

/-! ## C10: the empty-range check precedes use of `initial_price` -/

/-- C10: when the date-range filter is empty, `calculate_growth` returns
`Unavailable` for every `initial_price` (including `some 0`), every
`reinvest` flag and every baseline: the no-data outcome takes precedence
and no arithmetic on `initial_price` is reached. -/
theorem calculate_growth_empty_before_initial_price (prices : List PriceRecord)
    (s e : ℤ) (rv : Bool) (ip : Option ℚ) (b : Option (List PriceRecord))
    (h : get_sub_prices_by_day prices s e = []) :
    calculate_growth prices s e rv ip b = none := by
  unfold calculate_growth calculate_growth_self
  rw [h]
  rfl

/-- Witness for C10 at a concrete input with `initial_price = some 0`. -/
theorem calculate_growth_empty_before_initial_price_witness :
    calculate_growth [⟨1, 0, 0, 0, 100, 100, 0, 0⟩] 5 9 true (some 0)
      (some [⟨1, 0, 0, 0, 50, 50, 0, 0⟩]) = none :=
  calculate_growth_empty_before_initial_price [⟨1, 0, 0, 0, 100, 100, 0, 0⟩] 5 9
    true (some 0) (some [⟨1, 0, 0, 0, 50, 50, 0, 0⟩]) (by decide)

/-! ## C4: a zero initial price is not rejected -/

/-- C4 (failing input): with one in-range row (`close_raw = 100`,
`dividends = 0`) and caller-supplied `initial_price = 0`, the source
raises nothing: the division `(100 - 0) / 0` is performed by numpy and the
call silently returns float infinity.  The spec's `InvalidArgument`
rejection does not exist in the code. -/
theorem calculate_growth_zero_initial_price_inf :
    calculate_growth [⟨1, 0, 0, 0, 100, 100, 0, 0⟩] 1 1 false (some 0) none =
      some PyNum.inf := by
  have h := calculate_growth_self_eq [⟨1, 0, 0, 0, 100, 100, 0, 0⟩] 1 1 false
    (some 0) ⟨1, 0, 0, 0, 100, 100, 0, 0⟩ ⟨1, 0, 0, 0, 100, 100, 0, 0⟩
    (by decide) (by decide) (by decide)
  unfold calculate_growth
  rw [h]
  norm_num [pyDiv, pySub, get_sub_prices_by_day, List.filter]

/-! ## C6: non-positive rolling-average periods are not rejected as
`InvalidArgument` -/

/-- C6 (counterexample): `rolling_average` with `period = 0` on a one-row
series returns an ordinary all-missing series, not the engine-level
`InvalidArgument` rejection the claim asserts. -/
theorem rolling_average_period_zero_cex :
    rolling_average [⟨1, 0, 0, 0, 100, 100, 0, 0⟩] 0 =
      RollingOutcome.series [none] ∧
    rolling_average [⟨1, 0, 0, 0, 100, 100, 0, 0⟩] 0 ≠
      RollingOutcome.invalidArgument := by decide

/-- C6 (amended): the source performs no period validation of its own: for
`period ≤ 0` it never produces an engine-level `InvalidArgument`; a zero
period yields an all-missing series and a negative period surfaces only
the underlying library's generic `ValueError`. -/
theorem rolling_average_nonpositive_period (prices : List PriceRecord)
    (period : ℤ) (h : period ≤ 0) :
    rolling_average prices period =
      (if period < 0 then RollingOutcome.libraryValueError
       else RollingOutcome.series (List.replicate prices.length none)) ∧
    rolling_average prices period ≠ RollingOutcome.invalidArgument := by
  have hz : rolling_mean (prices.map (·.close_adj)) 0 =
      List.replicate prices.length none := by
    unfold rolling_mean rolling_apply
    refine List.eq_replicate_iff.mpr ⟨?_, ?_⟩
    · simp
    · intro b hb
      obtain ⟨i, _, rfl⟩ := List.mem_map.mp hb
      simp
  by_cases hneg : period < 0
  · constructor
    · simp [rolling_average, hneg]
    · simp [rolling_average, hneg]
  · have h0 : period = 0 := le_antisymm h (not_lt.mp hneg)
    subst h0
    constructor
    · simp [rolling_average, hz]
    · simp [rolling_average, hz]

/-- Witness for C6's amended theorem at a concrete negative period. -/
theorem rolling_average_nonpositive_period_witness :
    rolling_average [⟨1, 0, 0, 0, 100, 100, 0, 0⟩] (-1) =
      RollingOutcome.libraryValueError ∧
    rolling_average [⟨1, 0, 0, 0, 100, 100, 0, 0⟩] (-1) ≠
      RollingOutcome.invalidArgument := by
  have h := rolling_average_nonpositive_period [⟨1, 0, 0, 0, 100, 100, 0, 0⟩]
    (-1) (by decide)
  simpa using h

/-! ## C2: baseline comparison -/

/-- C2: with a baseline, `calculate_growth` is the no-baseline result with
the baseline's growth subtracted, where the baseline's growth is computed
over the same date range with `reinvest = true` unconditionally (whatever
the primary `reinvest` flag was) and an `Unavailable` baseline counts as
`0`; with no baseline the primary growth is returned unchanged (this is
the `none` case of the equation's right-hand side). -/
theorem calculate_growth_baseline_reinvest_true (prices : List PriceRecord)
    (s e : ℤ) (rv : Bool) (ip : Option ℚ) (b : List PriceRecord) :
    calculate_growth prices s e rv ip (some b) =
      (calculate_growth prices s e rv ip none).map
        (fun g => pySub g ((calculate_growth b s e true none none).getD (.num 0))) := by
  unfold calculate_growth
  cases h1 : calculate_growth_self prices s e rv ip with
  | none => rfl
  | some g =>
    cases h2 : calculate_growth_self b s e true none with
    | none => simp [h2, pySub_num_zero]
    | some bg => simp [h2, pySub_num_zero g, pySub_num_zero bg]

/-! ## C1: the growth formula without a baseline -/

/-- C1: on a sorted series whose sub-range is non-empty (first in-range row
`f`, last in-range row `lst` — by sortedness these carry the earliest and
latest in-range dates), `calculate_growth` with no baseline returns
`(final_value - initial_price) / initial_price`, where the initial price is
the caller-supplied one when given and otherwise `close_adj` (`reinvest`) or
`close_raw` (no `reinvest`) of the earliest in-range row, and the final
value is `close_adj` of the latest in-range row when `reinvest` and
otherwise its `close_raw` plus the sum of the in-range dividends.  The
nonzero hypothesis makes the claimed division well defined. -/
theorem calculate_growth_no_baseline_formula (prices : List PriceRecord)
    (s e : ℤ) (rv : Bool) (ip : Option ℚ) (f lst : PriceRecord)
    (hs : DatesSorted prices)
    (hf : (get_sub_prices_by_day prices s e).head? = some f)
    (hl : (get_sub_prices_by_day prices s e).getLast? = some lst)
    (hip : ip.getD (if rv then f.close_adj else f.close_raw) ≠ 0) :
    calculate_growth prices s e rv ip none =
      some (PyNum.num
        (((if rv then lst.close_adj
           else lst.close_raw +
             ((get_sub_prices_by_day prices s e).map (·.dividends)).sum)
          - ip.getD (if rv then f.close_adj else f.close_raw))
         / ip.getD (if rv then f.close_adj else f.close_raw))) := by
  have h := calculate_growth_self_eq prices s e rv ip f lst hs hf hl
  unfold calculate_growth
  rw [h]
  simp only [pyDiv, if_neg hip]
  rw [pySub_num_zero]

/-- Witness for C1: the spec's 2-row example
`[{date:1, close_raw:100, dividends:0}, {date:2, close_raw:105, dividends:2}]`
with `reinvest = false` and `initial_price` unset gives growth
`(105 + 2 - 100) / 100 = 0.07`. -/
theorem calculate_growth_no_baseline_formula_witness :
    calculate_growth [⟨1, 0, 0, 0, 100, 100, 0, 0⟩, ⟨2, 0, 0, 0, 107, 105, 0, 2⟩]
      1 2 false none none = some (PyNum.num (7 / 100)) := by
  have h := calculate_growth_no_baseline_formula
    [⟨1, 0, 0, 0, 100, 100, 0, 0⟩, ⟨2, 0, 0, 0, 107, 105, 0, 2⟩] 1 2 false none
    ⟨1, 0, 0, 0, 100, 100, 0, 0⟩ ⟨2, 0, 0, 0, 107, 105, 0, 2⟩
    (by decide) (by decide) (by decide) (by norm_num)
  rw [h]
  norm_num [get_sub_prices_by_day, List.filter]

/-! ## C5: the rolling average is the trailing simple moving average -/

theorem getD_map_range {α : Type} (f : ℕ → Option α) (n i : ℕ) (hi : i < n) :
    ((List.range n).map f).getD i none = f i := by
  rw [List.getD_eq_getElem?_getD, List.getElem?_map, List.getElem?_range hi]
  rfl

theorem windowAt_eq_drop_take (xs : List ℚ) (p i : ℕ) (hp : p ≤ i + 1) :
    windowAt xs p i = (xs.drop (i + 1 - p)).take p := by
  unfold windowAt
  rw [List.drop_take]
  congr 1
  omega

theorem windowAt_length (xs : List ℚ) (p i : ℕ) (hp : p ≤ i + 1)
    (hi : i < xs.length) : (windowAt xs p i).length = p := by
  rw [windowAt_eq_drop_take xs p i hp, List.length_take, List.length_drop]
  omega

theorem rolling_mean_getD (xs : List ℚ) (p i : ℕ) (hi : i < xs.length) :
    (rolling_mean xs p).getD i none =
      if 1 ≤ p ∧ p ≤ i + 1 then
        some ((windowAt xs p i).sum / ((windowAt xs p i).length : ℚ))
      else none := by
  unfold rolling_mean rolling_apply
  exact getD_map_range _ _ _ hi

/-- C5: for every `period ≥ 1`, `rolling_average` returns a series of the
same length as the input whose entry at position `i` is defined exactly when
`p` observations ending at `i` exist (`p ≤ i+1`); where defined it is the
arithmetic mean (sum divided by `p`) of the `p` most recent `close_adj`
values — the window has exactly `p` elements, never fewer (no
partial-window averages). -/
theorem rolling_average_sma (prices : List PriceRecord) (p : ℕ)
    (vals : List (Option ℚ)) (hp : 1 ≤ p)
    (hv : rolling_average prices (p : ℤ) = RollingOutcome.series vals) :
    vals.length = prices.length ∧
    ∀ i, i < prices.length →
      (p ≤ i + 1 →
        (((prices.map (·.close_adj)).drop (i + 1 - p)).take p).length = p ∧
        vals.getD i none =
          some ((((prices.map (·.close_adj)).drop (i + 1 - p)).take p).sum
            / (p : ℚ))) ∧
      (i + 1 < p → vals.getD i none = none) := by
  have hv' : rolling_average prices (p : ℤ) =
      RollingOutcome.series (rolling_mean (prices.map (·.close_adj)) p) := by
    unfold rolling_average
    rw [if_neg (by exact not_lt.mpr (Int.natCast_nonneg p)), Int.toNat_natCast]
  rw [hv'] at hv
  injection hv with hveq
  subst hveq
  refine ⟨by simp [rolling_mean, rolling_apply], ?_⟩
  intro i hi
  have hix : i < (prices.map (·.close_adj)).length := by simpa using hi
  constructor
  · intro hpi
    have hw := windowAt_eq_drop_take (prices.map (·.close_adj)) p i hpi
    have hlen := windowAt_length (prices.map (·.close_adj)) p i hpi hix
    refine ⟨by rw [← hw]; exact hlen, ?_⟩
    rw [rolling_mean_getD _ p i hix, if_pos ⟨hp, hpi⟩, ← hw, hlen]
  · intro hlt
    rw [rolling_mean_getD _ p i hix, if_neg (by omega)]

def c5prices : List PriceRecord :=
  [⟨1, 0, 0, 0, 10, 10, 0, 0⟩, ⟨2, 0, 0, 0, 20, 20, 0, 0⟩,
   ⟨3, 0, 0, 0, 30, 30, 0, 0⟩]

def c5vals : List (Option ℚ) := rolling_mean (c5prices.map (·.close_adj)) 2

/-- Witness for C5 on a concrete 3-row series with `period = 2`: the first
position is missing, the second is the mean of the first two closes. -/
theorem rolling_average_sma_witness :
    c5vals.length = c5prices.length ∧
    c5vals.getD 0 none = none ∧
    c5vals.getD 1 none =
      some ((((c5prices.map (·.close_adj)).drop 0).take 2).sum / (2 : ℚ)) := by
  have h := rolling_average_sma c5prices 2 c5vals (by decide) rfl
  exact ⟨h.1, (h.2 0 (by decide)).2 (by decide), ((h.2 1 (by decide)).1 (by decide)).2⟩

/-! ## C8: characterisation of the date-range filter -/

theorem get_sub_cons_pos (a : PriceRecord) (as : List PriceRecord) (s e : ℤ)
    (h : s ≤ a.date ∧ a.date ≤ e) :
    get_sub_prices_by_day (a :: as) s e = a :: get_sub_prices_by_day as s e := by
  unfold get_sub_prices_by_day
  rw [List.filter_cons_of_pos (by simp [h.1, h.2])]

theorem get_sub_cons_neg (a : PriceRecord) (as : List PriceRecord) (s e : ℤ)
    (h : ¬(s ≤ a.date ∧ a.date ≤ e)) :
    get_sub_prices_by_day (a :: as) s e = get_sub_prices_by_day as s e := by
  unfold get_sub_prices_by_day
  rw [List.filter_cons_of_neg (by simpa using h)]

/-- On a sorted tail whose dates are all ≥ `s`, the range filter is a
`takeWhile`: once a date exceeds `e`, all later dates do too. -/
theorem get_sub_eq_takeWhile (s e : ℤ) :
    ∀ (l : List PriceRecord), DatesSorted l → (∀ r ∈ l, s ≤ r.date) →
      get_sub_prices_by_day l s e =
        l.takeWhile (fun r => decide (s ≤ r.date) && decide (r.date ≤ e)) := by
  intro l
  induction l with
  | nil => intro _ _; rfl
  | cons a as ih =>
    intro hs hall
    by_cases ha : a.date ≤ e
    · have hpa : s ≤ a.date ∧ a.date ≤ e := ⟨hall a (List.mem_cons_self a as), ha⟩
      rw [get_sub_cons_pos a as s e hpa, List.takeWhile_cons_of_pos (by simp [hpa.1, hpa.2]),
        ih (List.pairwise_cons.mp hs).2 (fun r hr => hall r (List.mem_cons_of_mem a hr))]
    · rw [List.takeWhile_cons_of_neg (by simp [ha]), get_sub_cons_neg a as s e (by tauto)]
      apply get_sub_prices_eq_nil
      intro r hr hcon
      have hlt : a.date < r.date := (List.pairwise_cons.mp hs).1 r hr
      exact ha (le_of_lt (lt_of_lt_of_le hlt hcon.2))

/-- On a sorted series, the range filter is a contiguous slice. -/
theorem get_sub_infix (s e : ℤ) :
    ∀ (prices : List PriceRecord), DatesSorted prices →
      ∃ pre post, prices = pre ++ get_sub_prices_by_day prices s e ++ post := by
  intro prices
  induction prices with
  | nil => intro _; exact ⟨[], [], rfl⟩
  | cons a as ih =>
    intro hs
    by_cases hpa : s ≤ a.date ∧ a.date ≤ e
    · refine ⟨[], as.dropWhile (fun r => decide (s ≤ r.date) && decide (r.date ≤ e)), ?_⟩
      rw [get_sub_cons_pos a as s e hpa]
      have hall : ∀ r ∈ as, s ≤ r.date := fun r hr =>
        le_of_lt (lt_of_le_of_lt hpa.1 ((List.pairwise_cons.mp hs).1 r hr))
      rw [get_sub_eq_takeWhile s e as (List.pairwise_cons.mp hs).2 hall]
      simp [List.takeWhile_append_dropWhile]
    · obtain ⟨pre, post, hsplit⟩ := ih (List.pairwise_cons.mp hs).2
      rw [get_sub_cons_neg a as s e hpa]
      exact ⟨a :: pre, post, by rw [List.cons_append, List.cons_append, ← hsplit]⟩

/-- C8: on a sorted series, `get_sub_prices_by_day` returns exactly the
records with `s ≤ date ≤ e` (inclusive both ends), as a contiguous slice of
the original list (hence in the original order, values unchanged); when no
record is in range, the result is the empty list, not an error. -/
theorem get_sub_prices_spec (prices : List PriceRecord) (s e : ℤ)
    (hs : DatesSorted prices) :
    (∀ r : PriceRecord, r ∈ get_sub_prices_by_day prices s e ↔
        r ∈ prices ∧ s ≤ r.date ∧ r.date ≤ e) ∧
    (∃ pre post, prices = pre ++ get_sub_prices_by_day prices s e ++ post) ∧
    ((∀ r ∈ prices, ¬(s ≤ r.date ∧ r.date ≤ e)) →
        get_sub_prices_by_day prices s e = []) :=
  ⟨fun r => mem_get_sub_prices prices s e r, get_sub_infix s e prices hs,
    get_sub_prices_eq_nil prices s e⟩

/-- Witness for C8 at a concrete sorted 3-row series and the range `[2, 3]`:
the filter keeps the middle slice. -/
theorem get_sub_prices_spec_witness :
    get_sub_prices_by_day
      [⟨1, 0, 0, 0, 10, 10, 0, 0⟩, ⟨2, 0, 0, 0, 20, 20, 0, 0⟩,
       ⟨3, 0, 0, 0, 30, 30, 0, 0⟩] 2 3 =
      [⟨2, 0, 0, 0, 20, 20, 0, 0⟩, ⟨3, 0, 0, 0, 30, 30, 0, 0⟩] ∧
    ∃ pre post,
      [⟨1, 0, 0, 0, 10, 10, 0, 0⟩, ⟨2, 0, 0, 0, 20, 20, 0, 0⟩,
       (⟨3, 0, 0, 0, 30, 30, 0, 0⟩ : PriceRecord)] =
        pre ++ get_sub_prices_by_day
          [⟨1, 0, 0, 0, 10, 10, 0, 0⟩, ⟨2, 0, 0, 0, 20, 20, 0, 0⟩,
           ⟨3, 0, 0, 0, 30, 30, 0, 0⟩] 2 3 ++ post :=
  ⟨by decide,
   (get_sub_prices_spec
     [⟨1, 0, 0, 0, 10, 10, 0, 0⟩, ⟨2, 0, 0, 0, 20, 20, 0, 0⟩,
      ⟨3, 0, 0, 0, 30, 30, 0, 0⟩] 2 3 (by decide)).2.1⟩

/-! ## C7: Bollinger band algebra -/

theorem rolling_std_getD (xs : List ℚ) (p i : ℕ) (hi : i < xs.length) :
    (rolling_std xs p).getD i none =
      if 2 ≤ p ∧ p ≤ i + 1 then
        some (Real.sqrt (sampleVar (windowAt xs p i)))
      else none := by
  unfold rolling_std
  exact getD_map_range _ _ _ hi

theorem bollinger_bands_getD (prices : List PriceRecord) (p : ℕ) (m : ℤ)
    (i : ℕ) (hi : i < prices.length) :
    (bollinger_bands prices p m).getD i none =
      match (rolling_mean (prices.map typical_price) p).getD i none,
            (rolling_std (prices.map typical_price) p).getD i none with
      | some ma, some sd =>
        some ⟨(ma : ℝ), (ma : ℝ) + (m : ℝ) * sd, (ma : ℝ) - (m : ℝ) * sd⟩
      | _, _ => none := by
  unfold bollinger_bands
  have hi' : i < (prices.map typical_price).length := by simpa using hi
  exact getD_map_range _ _ _ hi'

/-- C7 (amended): wherever a Bollinger row is defined, with `sd` the trailing
sample standard deviation of the typical price over the window, the band
width satisfies `upper - lower = 2 * m_sigma * sd` for every `m_sigma`; and
the moving average lies strictly between the lower and the upper band
whenever `sd > 0` and `m_sigma` is positive (for `m_sigma ≤ 0` the bands
collapse onto or invert around the moving average). -/
theorem bollinger_bands_band_relations (prices : List PriceRecord) (p : ℕ)
    (m : ℤ) (i : ℕ) (row : BollingerRow) (sd : ℝ)
    (hi : i < prices.length)
    (hrow : (bollinger_bands prices p m).getD i none = some row)
    (hsd : (rolling_std (prices.map typical_price) p).getD i none = some sd) :
    row.bollinger_upper - row.bollinger_lower = 2 * (m : ℝ) * sd ∧
    (0 < sd → 1 ≤ m →
      row.bollinger_lower < row.bollinger_ma ∧
      row.bollinger_ma < row.bollinger_upper) := by
  rw [bollinger_bands_getD prices p m i hi, hsd] at hrow
  cases hma : (rolling_mean (prices.map typical_price) p).getD i none with
  | none => rw [hma] at hrow; simp at hrow
  | some ma =>
    rw [hma] at hrow
    simp only [Option.some.injEq] at hrow
    subst hrow
    refine ⟨by ring, ?_⟩
    intro hsdpos hm
    have hmr : (1 : ℝ) ≤ (m : ℝ) := by exact_mod_cast hm
    have hpos : 0 < (m : ℝ) * sd :=
      mul_pos (lt_of_lt_of_le zero_lt_one hmr) hsdpos
    constructor
    · simp only [BollingerRow.bollinger_lower, BollingerRow.bollinger_ma]
      linarith
    · simp only [BollingerRow.bollinger_upper, BollingerRow.bollinger_ma]
      linarith

def c7prices : List PriceRecord :=
  [⟨1, 0, 1, 1, 1, 1, 0, 0⟩, ⟨2, 0, 3, 3, 3, 3, 0, 0⟩]

theorem c7_mean_getD :
    (rolling_mean (c7prices.map typical_price) 2).getD 1 none = some 2 := by
  rw [rolling_mean_getD _ 2 1 (by decide), if_pos (by omega)]
  norm_num [c7prices, typical_price, windowAt]

theorem c7_std_getD :
    (rolling_std (c7prices.map typical_price) 2).getD 1 none =
      some (Real.sqrt 2) := by
  rw [rolling_std_getD _ 2 1 (by decide), if_pos (by omega)]
  have : sampleVar (windowAt (c7prices.map typical_price) 2 1) = 2 := by
    norm_num [c7prices, typical_price, windowAt, sampleVar]
  rw [this]
  norm_num

theorem c7_row_getD (m : ℤ) :
    (bollinger_bands c7prices 2 m).getD 1 none =
      some ⟨(2 : ℝ), (2 : ℝ) + (m : ℝ) * Real.sqrt 2,
        (2 : ℝ) - (m : ℝ) * Real.sqrt 2⟩ := by
  rw [bollinger_bands_getD c7prices 2 m 1 (by decide), c7_mean_getD, c7_std_getD]
  norm_num

/-- C7 (counterexample): the claim quantifies over every `m_sigma`, but with
`m_sigma = 0` the bands collapse: on a concrete series with positive
standard deviation `√2`, the row is `⟨2, 2, 2⟩` and the moving average is
not strictly between the (equal) bands. -/
theorem bollinger_m_sigma_zero_cex :
    (bollinger_bands c7prices 2 0).getD 1 none =
      some ⟨(2 : ℝ), (2 : ℝ), (2 : ℝ)⟩ ∧
    (rolling_std (c7prices.map typical_price) 2).getD 1 none =
      some (Real.sqrt 2) ∧
    0 < Real.sqrt 2 ∧
    ¬((BollingerRow.mk 2 2 2).bollinger_lower <
        (BollingerRow.mk 2 2 2).bollinger_ma ∧
      (BollingerRow.mk 2 2 2).bollinger_ma <
        (BollingerRow.mk 2 2 2).bollinger_upper) := by
  refine ⟨?_, c7_std_getD, Real.sqrt_pos.mpr (by norm_num), by simp⟩
  have h := c7_row_getD 0
  simpa using h

/-- Witness for C7's amended theorem with `m_sigma = 2` on the concrete
series: band width `4√2 = 2·2·√2` and the moving average strictly inside. -/
theorem bollinger_bands_band_relations_witness :
    (bollinger_bands c7prices 2 2).getD 1 none =
      some ⟨(2 : ℝ), (2 : ℝ) + 2 * Real.sqrt 2, (2 : ℝ) - 2 * Real.sqrt 2⟩ ∧
    ((2 : ℝ) + 2 * Real.sqrt 2) - ((2 : ℝ) - 2 * Real.sqrt 2) =
      2 * ((2 : ℤ) : ℝ) * Real.sqrt 2 ∧
    ((2 : ℝ) - 2 * Real.sqrt 2 < (2 : ℝ) ∧
      (2 : ℝ) < (2 : ℝ) + 2 * Real.sqrt 2) := by
  have hrow : (bollinger_bands c7prices 2 2).getD 1 none =
      some ⟨(2 : ℝ), (2 : ℝ) + 2 * Real.sqrt 2, (2 : ℝ) - 2 * Real.sqrt 2⟩ := by
    have h := c7_row_getD 2
    simpa using h
  have h := bollinger_bands_band_relations c7prices 2 2 1
    ⟨(2 : ℝ), (2 : ℝ) + 2 * Real.sqrt 2, (2 : ℝ) - 2 * Real.sqrt 2⟩
    (Real.sqrt 2) (by decide) hrow c7_std_getD
  refine ⟨hrow, ?_, ?_⟩
  · simpa using h.1
  · exact h.2 (Real.sqrt_pos.mpr (by norm_num)) (by decide)
